import Mathlib

/-!
Verification of the pdfwam PDF accessibility checker against its
natural-language specification.

The development shallowly embeds the relevant parts of the Python source:

* `pdfAWAMHandler.py` — the table structure validator `PdfTblStruct`
  (`typedict`, `childdict`, `init`, `add`) and the table branch of
  `PdfAWAMHandler.awamHandler`;
* `pdfStructureMixin.py` — `int2bin`, the encryption-permission fragment of
  `process_awam`, `get_is_scanned` / `_get_is_scanned`, and
  `document_headers_consistent`;
* `pdfwcag.py` — `test_WCAG_PDF_17` and the `wcag.pdf.11`/`wcag.pdf.13`
  merge block shared by `get_json` and `print_report`;
* `pdfAWAM.py` — the exception routing of `extractAWAMIndicators`.

PDF structure elements are Python dictionaries; they are modelled by a small
record carrying exactly the fields the embedded code reads (the `/S` type
tag, an identity surrogate for `id(...)`/dict equality, and the resolved
`/Pg` page number).  Python exceptions are modelled with `Except`/`Option`
result types: a constructor is provided for each exception that the embedded
code can raise, and uncaught exceptions surface as error values.
-/

/-- A PDF structure element as seen by the table validator: `s` is the `/S`
type tag, `idn` is a surrogate for the remaining dictionary content (so that
two elements with the same tag can be distinguished, mirroring Python dict
equality), and `pg` is the page number the element's `/Pg` reference resolves
to (`none` when the element has no `/Pg` key). -/
structure TElem where
  s : String
  idn : Nat
  pg : Option Nat := none
deriving DecidableEq, Repr

/-- Result of one `PdfTblStruct.add` call.  `notApplied` models `return 0`,
`applied` models `return 1`, `invalidErr` models raising
`PdfTblStructInvalidException` (after setting the invalid flag), and `crash`
models the uncaught `TypeError` from evaluating `self.prev['/S']` when the
previous element is `None`. -/
inductive AddRes where
  | notApplied
  | applied
  | invalidErr
  | crash
deriving DecidableEq, Repr

/-- The mutable state of a `PdfTblStruct` instance: fields `current`, `prev`,
`level`, `invalid`, `page` of the Python class (the `parent` field is written
but never read — the source marks it "Not used" — so it is omitted). -/
structure TblState where
  current : Option TElem
  prev : Option TElem
  level : Int
  invalid : Bool
  page : Nat
deriving DecidableEq, Repr

/-- `PdfTblStruct.typedict`: the type dict that "also acts as a
child->parent mapping". `none` models absence of the key. -/
def typedict : String → Option String
  | "/Table" => some ""
  | "/TR" => some "/Table"
  | "/TH" => some "/TR"
  | "/TD" => some "/TR"
  | _ => none

/-- `PdfTblStruct.childdict`: the parent->child mapping dict.  It is only
ever indexed with keys of `typedict`, for which it is total; other tags map
to the empty list here. -/
def childdict : String → List String
  | "/Table" => ["/TR"]
  | "/TR" => ["/TH", "/TD"]
  | _ => []

/-- `PdfTblStruct.init(root)`: reset `current` to `root`, `prev` to `None`,
`level` to 0, clear the invalid flag and the page number. -/
def tblInit (root : Option TElem) : TblState :=
  ⟨root, none, 0, false, 0⟩

/-- `PdfTblStruct.__init__`: calls `init()` and then sets `current = None`;
the result is the same as `init(None)`. -/
def tblFresh : TblState :=
  tblInit none

/-- `PdfTblStruct.add(elem)`, translated statement by statement from
`pdfAWAMHandler.py` (the `import pdb; pdb.set_trace()` debugging leftover in
the invalid branch is treated as a no-op).  Returns the new state together
with the call's outcome. -/
def tblAdd (st : TblState) (elem : TElem) : TblState × AddRes :=
  if st.invalid then (st, .notApplied)
  else
    match typedict elem.s with
    | none => (st, .notApplied)
    | some parent_type =>
      if elem.s = "/Table" then (tblInit (some elem), .notApplied)
      else if some elem = st.prev then (st, .notApplied)
      else
        let child_types := childdict elem.s
        let st1 : TblState :=
          { st with prev := st.current, current := some elem }
        match st.current with
        | none => (st1, .crash)
        | some prevElem =>
          if prevElem.s = parent_type then
            ({ st1 with level := st.level + 1 }, .applied)
          else if prevElem.s = elem.s then (st1, .applied)
          else if child_types.contains prevElem.s then
            ({ st1 with level := st.level - 1 }, .applied)
          else ({ st1 with invalid := true }, .invalidErr)

/-- The amended claim C1's step function, written from the claim's words: an
invalid validator ignores everything; a `Table` element reinitializes the
state; elements that are not table tags, and elements equal to the stored
previous element, are ignored; otherwise the previously added element `p`
(the state's `current`) decides: `p` of the new element's parent type is a
descent (level + 1), `p` of the same type is a sibling (level unchanged),
`p` among the new element's child types is an ascent (level - 1), and any
other `p` invalidates the validator.  When no element was added before, the
code path dereferences `None` (an uncaught `TypeError`). -/
def tblAddClaim (st : TblState) (elem : TElem) : TblState × AddRes :=
  if st.invalid then (st, .notApplied)
  else if elem.s = "/Table" then
    ({ current := some elem, prev := none, level := 0, invalid := false,
       page := 0 }, .notApplied)
  else if typedict elem.s = none then (st, .notApplied)
  else if st.prev = some elem then (st, .notApplied)
  else
    match st.current with
    | none => ({ st with prev := none, current := some elem }, .crash)
    | some p =>
      let stepped : TblState :=
        { st with prev := some p, current := some elem }
      if some p.s = typedict elem.s then
        ({ stepped with level := st.level + 1 }, .applied)
      else if p.s = elem.s then (stepped, .applied)
      else if (childdict elem.s).contains p.s then
        ({ stepped with level := st.level - 1 }, .applied)
      else ({ stepped with invalid := true }, .invalidErr)

/-- Folding `PdfTblStruct.add` over a sequence of elements (the states seen
by one validator across a traversal), keeping the final state. -/
def tblAddSeq (st : TblState) (es : List TElem) : TblState :=
  es.foldl (fun s e => (tblAdd s e).fst) st

/-- The table-tracking state of a `PdfAWAMHandler`: `tableStructDict` is the
`id(element) -> PdfTblStruct` dictionary (keyed by the element's identity
surrogate `idn`) and `cur` names the dictionary entry that `self.tableStruct`
currently aliases (`none` models the initial `self.tableStruct = None`). -/
structure HandlerTblSt where
  tableStructDict : List (Nat × TblState)
  cur : Option Nat
deriving DecidableEq, Repr

/-- Lookup in the `id -> PdfTblStruct` dictionary. -/
def tblDictLookup : List (Nat × TblState) → Nat → Option TblState
  | [], _ => none
  | (k, t) :: rest, k' => if k = k' then some t else tblDictLookup rest k'

/-- Write back a mutated `PdfTblStruct` into the dictionary entry it
aliases (Python mutates the shared object in place). -/
def tblDictUpdate : List (Nat × TblState) → Nat → TblState → List (Nat × TblState)
  | [], _, _ => []
  | (k, t) :: rest, k', t' =>
    if k = k' then (k, t') :: rest else (k, t) :: tblDictUpdate rest k' t'

/-- The `/Table` sub-branch of `PdfAWAMHandler.awamHandler`: fetch the
tracked `PdfTblStruct` for this element's identity from `tableStructDict`,
creating a fresh one on `KeyError`, and point `self.tableStruct` at it. -/
def handlerTableBranch (st : HandlerTblSt) (e : TElem) : HandlerTblSt :=
  match tblDictLookup st.tableStructDict e.idn with
  | some _ => { st with cur := some e.idn }
  | none =>
    { tableStructDict := st.tableStructDict ++ [(e.idn, tblFresh)],
      cur := some e.idn }

/-- The page-resolution block of the table branch
(`try: pg = element['/Pg'] ... except KeyError: pass`).  An element without
a `/Pg` key raises `KeyError`, which the block swallows; when `/Pg` is
present but `self.tableStruct` is `None`, evaluating
`self.tableStruct.isPageSet()` raises an `AttributeError` that the
`except KeyError` clause does not catch (`Except.error ()`).  Page-list
resolution (`getFlattenedPages` + `pages.index`) is abstracted by `e.pg`
carrying the already-resolved 1-based page number. -/
def handlerPageBlock (st : HandlerTblSt) (e : TElem) : Except Unit HandlerTblSt :=
  match e.pg with
  | none => .ok st
  | some n =>
    match st.cur with
    | none => .error ()
    | some k =>
      match tblDictLookup st.tableStructDict k with
      | none => .error ()
      | some t =>
        if t.page > 0 then .ok st
        else .ok { st with tableStructDict := tblDictUpdate st.tableStructDict k { t with page := n } }

/-- The table branch of `PdfAWAMHandler.awamHandler` (the
`elif structureType in list(PdfTblStruct.typedict.keys())` arm):
`/Table` elements re-point `self.tableStruct`, the page block runs, and then
`self.tableStruct.add(element)` is called with only
`PdfTblStructInvalidException` caught.  `Except.error ()` models an uncaught
exception escaping `awamHandler` (the `AttributeError` from a `None`
`self.tableStruct`, or the `TypeError` from `add` when `prev` is `None`).
Elements whose tag is not a table tag are outside this branch and leave the
table state unchanged. -/
def awamHandlerTbl (st : HandlerTblSt) (e : TElem) : Except Unit HandlerTblSt :=
  if (typedict e.s).isSome then
    let st1 := if e.s = "/Table" then handlerTableBranch st e else st
    match handlerPageBlock st1 e with
    | .error u => .error u
    | .ok st2 =>
      match st2.cur with
      | none => .error ()
      | some k =>
        match tblDictLookup st2.tableStructDict k with
        | none => .error ()
        | some t =>
          match tblAdd t e with
          | (_, .crash) => .error ()
          | (t', _) =>
            .ok { st2 with tableStructDict := tblDictUpdate st2.tableStructDict k t' }
  else .ok st

/-- The resources of one page, as read by `_get_is_scanned`:
`fontVals` is the `/Font` entry (`none` when the key is absent, otherwise
the values of the font dictionary, so `some []` is an empty — falsy — font
dictionary), and `xobjSubtypes` is the list of `/Subtype` values of the
`/XObject` entries (`none` when the key is absent). -/
structure PageRes where
  fontVals : Option (List String)
  xobjSubtypes : Option (List String)
deriving DecidableEq, Repr

/-- `PdfStructureMixin._get_is_scanned(pgnum)`: a page is scanned-like when
its resources hold no (non-empty) `/Font` entry and at least one `/XObject`
of subtype `/Image`. -/
def pageIsScanned (res : PageRes) : Bool :=
  let font : Bool :=
    match res.fontVals with
    | none => false
    | some vs => vs ≠ []
  match res.xobjSubtypes with
  | none => false
  | some subs => !font && subs.contains "/Image"

/-- `PdfStructureMixin.scproducers`: producers known to emit scanned PDFs. -/
def scproducers : List String :=
  ["Adobe PDF Scan Library", "KONICA MINOLTA bizhub C253",
   "Hewlett-Packard Intelligent Scanning Technology", "Canon iR C2880"]

/-- The producer test at the top of `get_is_scanned`: a non-empty
`/Producer` metadata string that case-insensitively starts with a known
scanner producer. -/
def producerIsScanner (producer : String) : Bool :=
  producer ≠ "" &&
    scproducers.any (fun prod => producer.toLower.startsWith prod.toLower)

/-- `PdfStructureMixin.get_is_scanned()`.  `structroot` is `self.structroot`
(`none` models Python `None`; any dictionary, even an empty one, is
`some ()`), `pages` the per-page resources, and `rnd1`/`rnd2` the two
`random.randrange(0, pgnum)` draws for documents with more than two pages
(reduced mod the page count so any value is a valid draw).  The `none`
result models the implicit `return None` when the document has no pages. -/
def get_is_scanned (producer : String) (structroot : Option Unit)
    (pages : List PageRes) (rnd1 rnd2 : Nat) : Option Bool :=
  if producerIsScanner producer then some true
  else if structroot.isSome then some false
  else
    match pages with
    | [] => none
    | [p0] => some (pageIsScanned p0)
    | [p0, p1] => some (pageIsScanned p0 && pageIsScanned p1)
    | p0 :: rest =>
      let pgs := p0 :: rest
      some (pageIsScanned p0 &&
        pageIsScanned (pgs.getD (rnd1 % pgs.length) p0) &&
        pageIsScanned (pgs.getD (rnd2 % pgs.length) p0))

/-- The inner loop of the heading-level-skip scan of
`document_headers_consistent`: walk one page's heading levels carrying the
running previous level `lprev`; `Except.error ()` signals a jump of more
than one level up, otherwise the final `lprev` is returned. -/
def scanPageLevels (lprev : Nat) : List Nat → Except Unit Nat
  | [] => .ok lprev
  | l :: ls => if l > lprev ∧ l - lprev > 1 then .error () else scanPageLevels l ls

/-- The outer loop of the heading-level-skip scan: pages `pg, pg+1, ...`
with their heading levels; returns the page recorded in `self.page` on the
first failure, `none` when every page passes. -/
def scanPagesFrom (lprev pg : Nat) : List (List Nat) → Option Nat
  | [] => none
  | lvls :: rest =>
    match scanPageLevels lprev lvls with
    | .error _ => some pg
    | .ok lp => scanPagesFrom lp (pg + 1) rest

/-- The first-header search of `document_headers_consistent`: the first page
(numbered from `pg`) with a non-empty heading list, together with the level
of its first heading. -/
def firstHeaderPage (pg : Nat) : List (List Nat) → Option (Nat × Nat)
  | [] => none
  | [] :: rest => firstHeaderPage (pg + 1) rest
  | (l :: _) :: _ => some (pg, l)

/-- `PdfStructureMixin.document_headers_consistent()`.  `outlineLen` is
`len(self.outline)` (`none` when accessing `self.outline` raises, which the
code logs and falls through).  `headers` gives, for pages `1..n` in order,
the numeric levels of the `/H<k>` heading elements collected from the
numbers tree for that page (heading tags are abstracted to their level,
i.e. `/H3` is `3`).  The result is `none` for a pass and `some p` for a
failure recorded at page `p` (the value stored into `self.page`). -/
def document_headers_consistent (outlineLen : Option Nat)
    (headers : List (List Nat)) : Option Nat :=
  if outlineLen = some 0 then none
  else
    match firstHeaderPage 1 headers with
    | none => scanPagesFrom 0 1 headers
    | some (pg, h1) =>
      if h1 ≠ 1 then some pg
      else scanPagesFrom 0 pg (headers.drop (pg - 1))

/-- Claim-side helper: the headings of a document flattened in page order,
each tagged with its 1-based page number (`pg` numbers the first list). -/
def flattenTagged (pg : Nat) : List (List Nat) → List (Nat × Nat)
  | [] => []
  | lvls :: rest => lvls.map (fun l => (pg, l)) ++ flattenTagged (pg + 1) rest

/-- Claim-side helper: scanning consecutive heading levels in page order,
the page of the first heading that jumps more than one level up from the
level before it (`none` when there is no such jump). -/
def firstJump (lprev : Nat) : List (Nat × Nat) → Option Nat
  | [] => none
  | (pg, l) :: rest =>
    if l > lprev ∧ l - lprev > 1 then some pg else firstJump l rest

/-- Python `(n >> y) & 1` on an arbitrary-precision integer: `>>` is an
arithmetic (floor) shift and `& 1` is the non-negative remainder mod 2. -/
def pybit (n : Int) (y : Nat) : Nat :=
  ((n.fdiv (2 ^ y)) % 2).toNat

/-- `int2bin(n, count)` from `pdfStructureMixin.py`: the binary expansion of
`n` using `count` digits, most significant bit first (`y` runs from
`count-1` down to `0`). -/
def int2bin (n : Int) (count : Nat) : List Nat :=
  (List.range count).map (fun i => pybit n (count - 1 - i))

/-- Value of the `egovmon.pdf.05` AWAM after the encryption fragment of
`process_awam`: `val` is the argument passed to `set_awam_id`, `unset`
means no branch fired and the pre-initialized entry is left in place. -/
inductive PermResult where
  | val (n : Nat)
  | unset
deriving DecidableEq, Repr

/-- The encryption-permission fragment of `PdfStructureMixin.process_awam`
(the `Encryption AWAM -> EGOVMON.PDF.05` block): `encrypted` is
`'/Encrypt' in self.trailer`, `revision` is `encd.get('/R', 2)` and `p` is
`encd.get('/P', 1)`.  `permissions[-5]` and `permissions[-10]` are positions
27 and 22 of the 32-character MSB-first bit string. -/
def process_awam_encryption (encrypted : Bool) (revision : Int) (p : Int) : PermResult :=
  if !encrypted then .val 1
  else
    let permissions := int2bin p 32
    let bit5 := permissions.getD 27 0
    let bit10 := permissions.getD 22 0
    if revision = 2 then .val bit5
    else if revision ≥ 3 then .val (bit5 ||| bit10)
    else .unset

/-- An item of the `PageLabels` `/Nums` array: either an integer key or a
labeling dictionary, of which `test_WCAG_PDF_17` only reads the `/S` entry
(`none` when the dictionary has no `/S` key). -/
inductive PLItem where
  | num (n : Int)
  | label (s : Option String)
deriving DecidableEq, Repr

/-- The pairing loop of `test_WCAG_PDF_17`: items at even positions are
keys, items at odd positions their values. -/
def pairUp : List PLItem → List (PLItem × PLItem)
  | k :: v :: rest => (k, v) :: pairUp rest
  | _ => []

/-- One assignment `d[k] = v` on a Python dict modelled as an association
list: replace the value in place when the key exists, otherwise append. -/
def plDictInsert (d : List (PLItem × PLItem)) (k v : PLItem) : List (PLItem × PLItem) :=
  if d.any (fun kv => kv.1 = k) then
    d.map (fun kv => if kv.1 = k then (k, v) else kv)
  else d ++ [(k, v)]

/-- `dict(numsl)`: fold the pair list into a Python dict (first-insertion
order, last value wins). -/
def plDictOf (acc : List (PLItem × PLItem)) : List (PLItem × PLItem) → List (PLItem × PLItem)
  | [] => acc
  | (k, v) :: rest => plDictOf (plDictInsert acc k v) rest

/-- The admissible `/S` numbering styles of `test_WCAG_PDF_17`. -/
def plStyles : List String :=
  ["/D", "/r", "/R", "/A", "/a"]

/-- The validation loop of `test_WCAG_PDF_17` over the dict's values:
a missing `/S` key or a style outside `plStyles` returns fail (0), reaching
the end returns pass (1).  Subscripting an integer item (`obj['/S']` on a
non-dictionary) raises an uncaught `TypeError`, modelled by `none`. -/
def checkPLVals : List PLItem → Option Nat
  | [] => some 1
  | .num _ :: _ => none
  | .label none :: _ => some 0
  | .label (some s) :: rest =>
    if plStyles.contains s then checkPLVals rest else some 0

/-- `PdfWCAG.test_WCAG_PDF_17()`.  The argument is the document's
`PageLabels` dictionary: `none` when absent (`get_page_labels` returned
`None`), `some none` when present without a `/Nums` key, and
`some (some nums)` with the `/Nums` array.  Results: `some 2` not
applicable, `some 0` fail, `some 1` pass, `none` an uncaught exception. -/
def test_WCAG_PDF_17 (pl : Option (Option (List PLItem))) : Option Nat :=
  match pl with
  | none => some 2
  | some none => some 0
  | some (some nums) =>
    if nums.length % 2 ≠ 0 then some 0
    else
      let numsd := plDictOf [] (pairUp nums)
      if !(numsd.map Prod.fst).contains (PLItem.num 0) then some 0
      else checkPLVals (numsd.map Prod.snd)

/-- Encode a list of well-formed `(key, labeling-entry)` pairs as the
alternating `/Nums` array they come from. -/
def plEncode : List (Int × Option String) → List PLItem
  | [] => []
  | (k, s) :: rest => PLItem.num k :: PLItem.label s :: plEncode rest

/-- Claim-side helper: a labeling entry passes the `/S` validation of
`test_WCAG_PDF_17` exactly when it is a dictionary whose `/S` value is one
of the admissible numbering styles. -/
def validPLLabel : PLItem → Bool
  | .label (some s) => plStyles.contains s
  | _ => false

/-- A value stored in `self.memo`: an int status, a `(fail, pass)` tuple, or
a string (the empty-string case of the report loops). -/
inductive MemoVal where
  | int (n : Int)
  | pair (f p : Nat)
  | str (s : String)
deriving DecidableEq, Repr

/-- `self.memo`, a Python dict modelled as an association list with unique
keys. -/
abbrev Memo := List (String × MemoVal)

/-- Dict lookup returning `none` on a missing key. -/
def memoLookup : Memo → String → Option MemoVal
  | [], _ => none
  | (k, v) :: rest, k' => if k = k' then some v else memoLookup rest k'

/-- Python `k in memo`. -/
def memoContains (m : Memo) (k : String) : Bool :=
  (memoLookup m k).isSome

/-- Python `memo[k] = v`: replace in place when present, else append. -/
def memoSet (m : Memo) (k : String) (v : MemoVal) : Memo :=
  if memoContains m k then
    m.map (fun kv => if kv.1 = k then (k, v) else kv)
  else m ++ [(k, v)]

/-- Python `del memo[k]` (on a key known to be present). -/
def memoDel (m : Memo) (k : String) : Memo :=
  m.filter (fun kv => kv.1 ≠ k)

/-- The Python exceptions the memo pre-preparation block can raise. -/
inductive PyErr where
  | keyError (k : String)
  | typeError
deriving DecidableEq, Repr

/-- Python `memo[k]`: `KeyError` on a missing key. -/
def memoGet (m : Memo) (k : String) : Except PyErr MemoVal :=
  match memoLookup m k with
  | some v => .ok v
  | none => .error (.keyError k)

/-- Python tuple unpacking `f, p = v`: `TypeError` unless `v` is a pair. -/
def unpackPair : MemoVal → Except PyErr (Nat × Nat)
  | .pair f p => .ok (f, p)
  | _ => .error .typeError

/-- The `wcag.pdf.11`/`wcag.pdf.13` pre-preparation block that opens both
`PdfWCAG.get_json` and `PdfWCAG.print_report`: when either key is in the
memo, read both (raising `KeyError` when one is missing), store a
`wcag.pdf.sc244` entry with the minimum fail count and maximum pass count,
and delete the two originals. -/
def mergeLinkTests (memo : Memo) : Except PyErr Memo :=
  if memoContains memo "wcag.pdf.11" || memoContains memo "wcag.pdf.13" then do
    let v11 ← memoGet memo "wcag.pdf.11"
    let fp11 ← unpackPair v11
    let v13 ← memoGet memo "wcag.pdf.13"
    let fp13 ← unpackPair v13
    let m1 := memoSet memo "wcag.pdf.sc244"
      (.pair (min fp11.1 fp13.1) (max fp11.2 fp13.2))
    let m2 := memoDel m1 "wcag.pdf.11"
    return memoDel m2 "wcag.pdf.13"
  else return memo

/-- Outcome of the `try` body of `extractAWAMIndicators` (document parsing
and analysis, abstracted): either the accumulated AWAM result map, or one of
the exception classes that the `except` clauses of `pdfAWAM.py`
distinguish. -/
inductive AnalysisOutcome where
  | ok (rmap : List (String × Int))
  | decryptionFailed
  | notImplementedError
  | pdfReadError (msg : String)
  | otherError (cls msg : String)
deriving DecidableEq, Repr

/-- What `extractAWAMIndicators` does for its caller: return the result map,
or raise `PdfWamProcessingError` with the given message. -/
inductive ExtractResult where
  | resultMap (rmap : List (String × Int))
  | processingError (msg : String)
deriving DecidableEq, Repr

/-- The exception routing of `extractAWAMIndicators` in `pdfAWAM.py`: every
failure class of the analysis is re-raised as a `PdfWamProcessingError`
carrying the corresponding message (for the catch-all, the original
exception's class name and message); only a completed analysis returns a
result map. -/
def extractAWAMIndicators : AnalysisOutcome → ExtractResult
  | .ok rmap => .resultMap rmap
  | .decryptionFailed => .processingError "Document Decryption failed"
  | .notImplementedError => .processingError "Unsupported decryption algorithm."
  | .pdfReadError m => .processingError ("Error, cannot read PDF file: " ++ m)
  | .otherError cls m =>
    .processingError
      ("Unguarded error => [" ++ cls ++ " : " ++ m ++
        " ] <=. Please send feedback to developers.")

set_option maxRecDepth 4000

/-- Claim C1 (amended).  `PdfTblStruct.add` behaves exactly as the claim's
case analysis amended with the two guards the source applies first: an
element whose tag is not one of the four table tags, and an element equal to
the stored previous element, are no-ops returning "not applied"; add on an
Invalid validator is a no-op returning "not applied"; a `Table` element
reinitializes the state; otherwise the type of the previously added element
decides between descent (+1), sibling (0), ascent (-1) and invalidation.
And the invalid flag is sticky: an invalid validator is left unchanged by
every further call sequence. -/
theorem claimC1 :
    (∀ (st : TblState) (e : TElem), tblAdd st e = tblAddClaim st e) ∧
      ∀ (st : TblState) (es : List TElem), st.invalid = true → tblAddSeq st es = st := by
  constructor
  · intro st e
    by_cases hinv : st.invalid
    · simp [tblAdd, tblAddClaim, hinv]
    · by_cases hT : e.s = "/Table"
      · have htd : typedict e.s = some "" := by rw [hT]; rfl
        simp [tblAdd, tblAddClaim, hinv, hT, htd, tblInit]
        try rfl
      · rcases htd : typedict e.s with _ | pt
        · simp [tblAdd, tblAddClaim, hinv, hT, htd]
        · by_cases hdup : st.prev = some e
          · simp [tblAdd, tblAddClaim, hinv, hT, htd, hdup]
          · have hdup' : ¬ some e = st.prev := fun h => hdup h.symm
            rcases hc : st.current with _ | p
            · simp [tblAdd, tblAddClaim, hinv, hT, htd, hdup, hdup', hc]
            · by_cases hp1 : p.s = pt
              · simp [tblAdd, tblAddClaim, hinv, hT, htd, hdup, hdup', hc, hp1]
              · by_cases hp2 : p.s = e.s
                · simp [tblAdd, tblAddClaim, hinv, hT, htd, hdup, hdup', hc, hp1, hp2]
                · by_cases hp3 : (childdict e.s).contains p.s
                  · simp [tblAdd, tblAddClaim, hinv, hT, htd, hdup, hdup', hc, hp1, hp2, hp3]
                  · simp [tblAdd, tblAddClaim, hinv, hT, htd, hdup, hdup', hc, hp1, hp2, hp3]
  · intro st es h
    induction es with
    | nil => rfl
    | cons e es ih =>
      have hstep : tblAdd st e = (st, AddRes.notApplied) := by simp [tblAdd, h]
      calc
        tblAddSeq st (e :: es) = tblAddSeq (tblAdd st e).fst es := rfl
        _ = tblAddSeq st es := by rw [hstep]
        _ = st := ih

/-- Witness for claim C1: both parts applied at concrete inputs — an invalid
validator ignores a `/TD` element and stays fixed under a further call. -/
theorem claimC1_witness :
    tblAdd ⟨some ⟨"/TR", 1, none⟩, none, 0, true, 0⟩ ⟨"/TD", 2, none⟩ =
      tblAddClaim ⟨some ⟨"/TR", 1, none⟩, none, 0, true, 0⟩ ⟨"/TD", 2, none⟩ ∧
      tblAddSeq ⟨none, none, 0, true, 0⟩ [⟨"/TR", 1, none⟩] = ⟨none, none, 0, true, 0⟩ :=
  ⟨claimC1.1 _ _, claimC1.2 _ _ rfl⟩

/-- Counterexample to claim C1 as stated.  After the sequence `Table`, `TR`,
`TH` the validator is not invalid, the previously added element is the `TH`
(whose type is among the child types of `/TR`), yet re-adding the earlier
`TR` element — which equals the stored `prev` — leaves the level at 2 and
returns "not applied", where the claim's case analysis demands a level
decrease to 1: the claim omits the duplicate-element guard of the source. -/
theorem claimC1_counterexample :
    (tblAddSeq tblFresh [⟨"/Table", 0, none⟩, ⟨"/TR", 1, none⟩, ⟨"/TH", 2, none⟩]).invalid = false ∧
      (tblAddSeq tblFresh [⟨"/Table", 0, none⟩, ⟨"/TR", 1, none⟩, ⟨"/TH", 2, none⟩]).current =
        some ⟨"/TH", 2, none⟩ ∧
      (childdict "/TR").contains "/TH" = true ∧
      tblAdd (tblAddSeq tblFresh [⟨"/Table", 0, none⟩, ⟨"/TR", 1, none⟩, ⟨"/TH", 2, none⟩])
          ⟨"/TR", 1, none⟩ =
        (tblAddSeq tblFresh [⟨"/Table", 0, none⟩, ⟨"/TR", 1, none⟩, ⟨"/TH", 2, none⟩],
          AddRes.notApplied) ∧
      (tblAdd (tblAddSeq tblFresh [⟨"/Table", 0, none⟩, ⟨"/TR", 1, none⟩, ⟨"/TH", 2, none⟩])
          ⟨"/TR", 1, none⟩).fst.level = 2 := by
  decide

/-- Counterexample to claim C2 as stated: for a fresh validator fed
`Table`, `TR`, `TH`, the nesting level after the `TH` is 2, not 1 (the
`Table -> TR` step already increments the level). -/
theorem claimC2_counterexample :
    (tblAddSeq tblFresh [⟨"/Table", 0, none⟩, ⟨"/TR", 1, none⟩, ⟨"/TH", 2, none⟩]).level ≠ 1 ∧
      (tblAddSeq tblFresh [⟨"/Table", 0, none⟩, ⟨"/TR", 1, none⟩, ⟨"/TH", 2, none⟩]).level = 2 := by
  decide

/-- Claim C2 (amended).  For a fresh table validator processing `Table`,
`TR`, `TH` (no sibling `TR` before the `TH`), adding the `TH` returns
"applied" (1) and leaves the nesting level at 2; and for a fresh validator
processing `Table` immediately followed by `TD`, the validator transitions
to Invalid (raising `PdfTblStructInvalidException`). -/
theorem claimC2 :
    (tblAdd (tblAddSeq tblFresh [⟨"/Table", 0, none⟩, ⟨"/TR", 1, none⟩]) ⟨"/TH", 2, none⟩).snd =
        AddRes.applied ∧
      (tblAdd (tblAddSeq tblFresh [⟨"/Table", 0, none⟩, ⟨"/TR", 1, none⟩])
          ⟨"/TH", 2, none⟩).fst.level = 2 ∧
      (tblAdd (tblAddSeq tblFresh [⟨"/Table", 0, none⟩]) ⟨"/TD", 3, none⟩).fst.invalid = true ∧
      (tblAdd (tblAddSeq tblFresh [⟨"/Table", 0, none⟩]) ⟨"/TD", 3, none⟩).snd =
        AddRes.invalidErr := by
  decide

/-- Claim C3 (code bug).  A `/TR` element dispatched to the AWAM handler
before any `/Table` element (handler state: `tableStruct = None`, empty
`tableStructDict`) makes `awamHandler` raise an uncaught `AttributeError`
(`self.tableStruct.add(element)` on `None`; only
`PdfTblStructInvalidException` is caught), so the handler does not return
normally and the exception aborts the traversal — against the claim and the
documented recovery policy.  By contrast the same element after a `/Table`
element is handled normally. -/
theorem claimC3 :
    awamHandlerTbl ⟨[], none⟩ ⟨"/TR", 7, none⟩ = Except.error () ∧
      (awamHandlerTbl ⟨[], none⟩ ⟨"/Table", 0, none⟩).isOk = true :=
  ⟨rfl, rfl⟩

/-- Claim C4.  `get_is_scanned`: when the producer matches no known scanner
prefix and a structure tree exists (`structroot` is not `None`), the
document is classified not scanned whatever the page resources and random
draws; and a 1-page document with an `/Image` XObject, no `/Font` resource
and no structure tree is classified scanned. -/
theorem claimC4 :
    ∀ (producer : String) (pages : List PageRes) (rnd1 rnd2 : Nat),
      (producerIsScanner producer = false →
        get_is_scanned producer (some ()) pages rnd1 rnd2 = some false) ∧
      ∀ (p0 : PageRes) (subs : List String), pages = [p0] → p0.fontVals = none →
        p0.xobjSubtypes = some subs → subs.contains "/Image" = true →
        get_is_scanned producer none pages rnd1 rnd2 = some true := by
  intro producer pages rnd1 rnd2
  constructor
  · intro h
    simp [get_is_scanned, h]
  · intro p0 subs hp hf hx hc
    subst hp
    by_cases hprod : producerIsScanner producer
    · simp [get_is_scanned, hprod]
    · simp [get_is_scanned, hprod, pageIsScanned, hf, hx]
      exact List.mem_of_elem_eq_true hc

/-- Witness for claim C4: both parts at a concrete one-page document whose
only resource is an image XObject. -/
theorem claimC4_witness :
    get_is_scanned "" (some ()) [⟨none, some ["/Image"]⟩] 0 0 = some false ∧
      get_is_scanned "" none [⟨none, some ["/Image"]⟩] 0 0 = some true :=
  ⟨(claimC4 "" [⟨none, some ["/Image"]⟩] 0 0).1 rfl,
    (claimC4 "" [⟨none, some ["/Image"]⟩] 0 0).2 ⟨none, some ["/Image"]⟩ ["/Image"]
      rfl rfl rfl rfl⟩

/-- One page of the level-skip scan corresponds to a page-tagged prefix of
the flattened heading list. -/
theorem firstJump_append_page (lvls : List Nat) :
    ∀ (lprev pg : Nat) (tail : List (Nat × Nat)),
      firstJump lprev (lvls.map (fun l => (pg, l)) ++ tail) =
        match scanPageLevels lprev lvls with
        | .error _ => some pg
        | .ok lp => firstJump lp tail := by
  induction lvls with
  | nil => intro lprev pg tail; rfl
  | cons l ls ih =>
    intro lprev pg tail
    by_cases h : l > lprev ∧ l - lprev > 1
    · simp [firstJump, scanPageLevels, h]
    · simp [firstJump, scanPageLevels, h, ih]

/-- The level-skip scan of `document_headers_consistent` finds exactly the
page of the first jump of more than one level up between consecutive
headings of the flattened, page-tagged heading list. -/
theorem scanPagesFrom_eq_firstJump (hs : List (List Nat)) :
    ∀ (lprev pg : Nat), scanPagesFrom lprev pg hs = firstJump lprev (flattenTagged pg hs) := by
  induction hs with
  | nil => intro lprev pg; rfl
  | cons lvls rest ih =>
    intro lprev pg
    rw [flattenTagged, firstJump_append_page]
    cases hsc : scanPageLevels lprev lvls with
    | error u => simp [scanPagesFrom, hsc]
    | ok lp => simp [scanPagesFrom, hsc, ih]

/-- The page found by the first-header search is at or after the starting
page. -/
theorem firstHeaderPage_le (hs : List (List Nat)) :
    ∀ (k pg h : Nat), firstHeaderPage k hs = some (pg, h) → k ≤ pg := by
  induction hs with
  | nil => intro k pg h hh; cases hh
  | cons lvls rest ih =>
    intro k pg h hh
    cases lvls with
    | nil =>
      simp only [firstHeaderPage] at hh
      have := ih (k + 1) pg h hh
      omega
    | cons l ls =>
      simp only [firstHeaderPage, Option.some.injEq, Prod.mk.injEq] at hh
      omega

/-- Pages before the first page holding a heading contribute nothing to the
flattened heading list, so the scan may start there. -/
theorem flattenTagged_drop (hs : List (List Nat)) :
    ∀ (k pg h : Nat), firstHeaderPage k hs = some (pg, h) →
      flattenTagged k hs = flattenTagged pg (hs.drop (pg - k)) := by
  induction hs with
  | nil => intro k pg h hh; cases hh
  | cons lvls rest ih =>
    intro k pg h hh
    cases lvls with
    | nil =>
      simp only [firstHeaderPage] at hh
      have hle := firstHeaderPage_le rest (k + 1) pg h hh
      have h1 : pg - k = (pg - (k + 1)) + 1 := by omega
      rw [flattenTagged]
      simp only [List.map_nil, List.nil_append]
      rw [ih (k + 1) pg h hh, h1]
      rfl
    | cons l ls =>
      simp only [firstHeaderPage, Option.some.injEq, Prod.mk.injEq] at hh
      obtain ⟨hpg, _⟩ := hh
      subst hpg
      simp

/-- A document whose pages all have empty heading lists has no first
heading. -/
theorem firstHeaderPage_none_of_empty (hs : List (List Nat)) :
    ∀ (k : Nat), (∀ l ∈ hs, l = []) → firstHeaderPage k hs = none := by
  induction hs with
  | nil => intro k _; rfl
  | cons lvls rest ih =>
    intro k hempty
    have h0 : lvls = [] := hempty lvls (List.mem_cons_self _ _)
    subst h0
    exact ih (k + 1) (fun l hl => hempty l (List.mem_cons_of_mem _ hl))

/-- The level-skip scan passes a document whose pages all have empty heading
lists. -/
theorem scanPagesFrom_none_of_empty (hs : List (List Nat)) :
    ∀ (lprev pg : Nat), (∀ l ∈ hs, l = []) → scanPagesFrom lprev pg hs = none := by
  induction hs with
  | nil => intro lprev pg _; rfl
  | cons lvls rest ih =>
    intro lprev pg hempty
    have h0 : lvls = [] := hempty lvls (List.mem_cons_self _ _)
    subst h0
    exact ih lprev (pg + 1) (fun l hl => hempty l (List.mem_cons_of_mem _ hl))

/-- Claim C5 (amended).  `document_headers_consistent`, provided the
document outline (bookmark tree) is not present-and-empty (the function
passes unconditionally when `len(self.outline) == 0`): a document with no
headings passes; when the first heading in page order is not level 1 the
check fails recording that page; when the first heading is level 1 the
result is exactly the page of the first jump of more than one level up
between consecutive heading levels in page order (`none` when there is no
such jump); headings `[H1 (pg1), H3 (pg2)]` fail at page 2 and
`[H1, H2, H1, H2]` pass. -/
theorem claimC5 :
    ∀ (ol : Option Nat) (hs : List (List Nat)), ol ≠ some 0 →
      ((∀ l ∈ hs, l = []) → document_headers_consistent ol hs = none) ∧
      (∀ (pg h1 : Nat), firstHeaderPage 1 hs = some (pg, h1) → h1 ≠ 1 →
        document_headers_consistent ol hs = some pg) ∧
      (∀ (pg : Nat), firstHeaderPage 1 hs = some (pg, 1) →
        document_headers_consistent ol hs = firstJump 0 (flattenTagged 1 hs)) ∧
      document_headers_consistent (some 1) [[1], [3]] = some 2 ∧
      document_headers_consistent (some 1) [[1, 2, 1, 2]] = none := by
  intro ol hs hol
  refine ⟨?_, ?_, ?_, by decide, by decide⟩
  · intro hempty
    rw [document_headers_consistent, if_neg hol,
      firstHeaderPage_none_of_empty hs 1 hempty]
    exact scanPagesFrom_none_of_empty hs 0 1 hempty
  · intro pg h1 hfh hne
    rw [document_headers_consistent, if_neg hol, hfh]
    simp [hne]
  · intro pg hfh
    rw [document_headers_consistent, if_neg hol, hfh]
    simp only [ne_eq, not_true_eq_false, if_false, ite_false]
    rw [scanPagesFrom_eq_firstJump, ← flattenTagged_drop hs 1 pg 1 hfh]

/-- Witness for claim C5: a document whose first heading is an H2 on page 1
fails at page 1. -/
theorem claimC5_witness :
    document_headers_consistent (some 1) [[2]] = some 1 :=
  (claimC5 (some 1) [[2]] (by decide)).2.1 1 2 rfl (by decide)

/-- Counterexample to claim C5 as stated: a document with headings
`[H1 (pg1), H3 (pg2)]` but an empty outline passes (the claim demands a
failure at page 2) — `document_headers_consistent` returns success
immediately when `len(self.outline) == 0`, before looking at any heading. -/
theorem claimC5_counterexample :
    document_headers_consistent (some 0) [[1], [3]] = none ∧
      document_headers_consistent (some 0) [[1], [3]] ≠ some 2 := by
  decide

/-- Claim C6.  For every encrypted document the `egovmon.pdf.05` permission
result is computed from the 32-bit MSB-first binary expansion of the `/P`
value: with revision `/R = 2` it is bit position 5 alone (the 5th bit from
the least-significant end, `(p >> 4) & 1`), and with revision `>= 3` it is
the bitwise OR of bit positions 5 and 10 (`(p >> 4) & 1 | (p >> 9) & 1`). -/
theorem claimC6 :
    ∀ (revision p : Int),
      (revision = 2 →
        process_awam_encryption true revision p = PermResult.val (pybit p 4)) ∧
      (3 ≤ revision →
        process_awam_encryption true revision p =
          PermResult.val (pybit p 4 ||| pybit p 9)) := by
  intro revision p
  have h27 : ((int2bin p 32)[27]?).getD 0 = pybit p 4 := rfl
  have h22 : ((int2bin p 32)[22]?).getD 0 = pybit p 9 := rfl
  constructor
  · intro h
    subst h
    simp [process_awam_encryption, h27]
  · intro h
    have hne : revision ≠ 2 := by omega
    simp [process_awam_encryption, hne, h, h27, h22]

/-- Witness for claim C6: both revisions at the concrete permission value
-3904 (a typical `/P`). -/
theorem claimC6_witness :
    process_awam_encryption true 2 (-3904) = PermResult.val (pybit (-3904) 4) ∧
      process_awam_encryption true 3 (-3904) =
        PermResult.val (pybit (-3904) 4 ||| pybit (-3904) 9) :=
  ⟨(claimC6 2 (-3904)).1 rfl, (claimC6 3 (-3904)).2 (by norm_num)⟩

/-- Encoding then pairing recovers the entry list. -/
theorem pairUp_plEncode (entries : List (Int × Option String)) :
    pairUp (plEncode entries) =
      entries.map (fun e => (PLItem.num e.1, PLItem.label e.2)) := by
  induction entries with
  | nil => rfl
  | cons e rest ih =>
    obtain ⟨k, s⟩ := e
    simp [plEncode, pairUp, ih]

/-- An encoded `/Nums` array always has even length. -/
theorem length_plEncode (entries : List (Int × Option String)) :
    (plEncode entries).length = 2 * entries.length := by
  induction entries with
  | nil => rfl
  | cons e rest ih =>
    obtain ⟨k, s⟩ := e
    simp [plEncode, ih]
    omega

/-- Replacing a value in place does not change the key list of the dict. -/
theorem plDictInsert_map_fst_of_any (d : List (PLItem × PLItem)) (k v : PLItem)
    (h : d.any (fun kv => kv.1 = k) = true) :
    (plDictInsert d k v).map Prod.fst = d.map Prod.fst := by
  unfold plDictInsert
  rw [if_pos h, List.map_map]
  apply List.map_congr_left
  intro kv _
  by_cases hk : kv.1 = k
  · simp [hk]
  · simp [hk]

/-- Keys after one dict assignment: the old keys plus the assigned key. -/
theorem mem_map_fst_plDictInsert (d : List (PLItem × PLItem)) (k v k0 : PLItem) :
    k0 ∈ (plDictInsert d k v).map Prod.fst ↔ k0 ∈ d.map Prod.fst ∨ k0 = k := by
  by_cases h : d.any (fun kv => kv.1 = k) = true
  · rw [plDictInsert_map_fst_of_any d k v h]
    constructor
    · exact Or.inl
    · rintro (hm | rfl)
      · exact hm
      · obtain ⟨kv, hkv, hk⟩ := List.any_eq_true.mp h
        exact List.mem_map.mpr ⟨kv, hkv, of_decide_eq_true hk⟩
  · unfold plDictInsert
    rw [if_neg h]
    simp

/-- Keys of the built dict are exactly the keys fed into it. -/
theorem mem_keys_plDictOf (ps : List (PLItem × PLItem)) :
    ∀ (acc : List (PLItem × PLItem)) (k0 : PLItem),
      k0 ∈ (plDictOf acc ps).map Prod.fst ↔
        k0 ∈ acc.map Prod.fst ∨ k0 ∈ ps.map Prod.fst := by
  induction ps with
  | nil =>
    intro acc k0
    simp [plDictOf]
  | cons kv rest ih =>
    intro acc k0
    obtain ⟨k, v⟩ := kv
    rw [plDictOf, ih, mem_map_fst_plDictInsert]
    simp
    tauto

/-- A value of the dict after one assignment is an old value or the
assigned value. -/
theorem mem_map_snd_plDictInsert (d : List (PLItem × PLItem)) (k v v0 : PLItem)
    (h : v0 ∈ (plDictInsert d k v).map Prod.snd) :
    v0 ∈ d.map Prod.snd ∨ v0 = v := by
  unfold plDictInsert at h
  by_cases hany : d.any (fun kv => kv.1 = k) = true
  · rw [if_pos hany, List.map_map] at h
    obtain ⟨kv, hkv, heq⟩ := List.mem_map.mp h
    by_cases hk : kv.1 = k
    · right
      simp only [Function.comp_apply, hk, if_pos] at heq
      exact heq.symm
    · left
      simp only [Function.comp_apply, hk, if_neg, ite_false] at heq
      exact heq ▸ List.mem_map_of_mem Prod.snd hkv
  · rw [if_neg hany, List.map_append] at h
    rcases List.mem_append.mp h with h1 | h2
    · exact Or.inl h1
    · right
      simpa using h2

/-- Every value of the built dict comes from the accumulator or from the
pair list. -/
theorem mem_values_plDictOf (ps : List (PLItem × PLItem)) :
    ∀ (acc : List (PLItem × PLItem)) (v0 : PLItem),
      v0 ∈ (plDictOf acc ps).map Prod.snd →
        v0 ∈ acc.map Prod.snd ∨ v0 ∈ ps.map Prod.snd := by
  induction ps with
  | nil =>
    intro acc v0 h
    exact Or.inl (by simpa [plDictOf] using h)
  | cons kv rest ih =>
    intro acc v0 h
    obtain ⟨k, v⟩ := kv
    rw [plDictOf] at h
    rcases ih _ v0 h with h1 | h2
    · rcases mem_map_snd_plDictInsert acc k v v0 h1 with ha | hb
      · exact Or.inl ha
      · right
        simp [hb]
    · right
      simp only [List.map_cons]
      exact List.mem_cons_of_mem _ h2

/-- With pairwise distinct keys the dict is just the pair list. -/
theorem plDictOf_eq_append (ps : List (PLItem × PLItem)) :
    ∀ (acc : List (PLItem × PLItem)), ((ps.map Prod.fst).Nodup) →
      (∀ k ∈ ps.map Prod.fst, k ∉ acc.map Prod.fst) →
      plDictOf acc ps = acc ++ ps := by
  induction ps with
  | nil =>
    intro acc _ _
    simp [plDictOf]
  | cons kv rest ih =>
    intro acc hnd hdisj
    obtain ⟨k, v⟩ := kv
    simp only [List.map_cons, List.nodup_cons] at hnd
    have hkacc : k ∉ acc.map Prod.fst := hdisj k (by simp)
    have hany : acc.any (fun kv => kv.1 = k) = false := by
      rw [List.any_eq_false]
      intro kv hkv
      simp only [decide_eq_true_eq]
      intro hk
      exact hkacc (List.mem_map.mpr ⟨kv, hkv, hk⟩)
    have hins : plDictInsert acc k v = acc ++ [(k, v)] := by
      unfold plDictInsert
      rw [if_neg (by simp [hany])]
    have hdisj' : ∀ k' ∈ rest.map Prod.fst, k' ∉ (acc ++ [(k, v)]).map Prod.fst := by
      intro k' hk'
      rw [List.map_append, List.mem_append]
      rintro (h1 | h2)
      · exact hdisj k' (by simp [hk']) h1
      · simp only [List.map_cons, List.map_nil, List.mem_singleton] at h2
        subst h2
        exact hnd.1 hk'
    rw [plDictOf, hins, ih (acc ++ [(k, v)]) hnd.2 hdisj', List.append_assoc]
    rfl

/-- The validation loop passes when every value is a labeling entry with an
admissible `/S` style. -/
theorem checkPLVals_of_all_valid (l : List PLItem)
    (h : ∀ v ∈ l, validPLLabel v = true) : checkPLVals l = some 1 := by
  induction l with
  | nil => rfl
  | cons v rest ih =>
    have hv := h v (by simp)
    cases v with
    | num n => simp [validPLLabel] at hv
    | label o =>
      cases o with
      | none => simp [validPLLabel] at hv
      | some s =>
        have hs : plStyles.contains s = true := by simpa [validPLLabel] using hv
        rw [checkPLVals, if_pos hs]
        exact ih (fun v hv' => h v (List.mem_cons_of_mem _ hv'))

/-- The validation loop fails when all values are labeling entries and at
least one lacks an admissible `/S` style. -/
theorem checkPLVals_of_bad (l : List PLItem)
    (hl : ∀ v ∈ l, ∃ o, v = PLItem.label o)
    (hbad : ∃ v ∈ l, validPLLabel v = false) : checkPLVals l = some 0 := by
  induction l with
  | nil =>
    obtain ⟨v, hv, _⟩ := hbad
    simp at hv
  | cons v rest ih =>
    obtain ⟨o, rfl⟩ := hl v (by simp)
    cases o with
    | none => rfl
    | some s =>
      by_cases hs : plStyles.contains s = true
      · rw [checkPLVals, if_pos hs]
        apply ih
        · intro v hv
          exact hl v (List.mem_cons_of_mem _ hv)
        · obtain ⟨v, hv, hvf⟩ := hbad
          rcases List.mem_cons.mp hv with rfl | hv'
          · exact absurd (List.mem_of_elem_eq_true hs)
              (by simpa [validPLLabel] using hvf)
          · exact ⟨v, hv', hvf⟩
      · rw [checkPLVals, if_neg hs]

/-- Definitional shape of `test_WCAG_PDF_17` on a present `/Nums` array:
odd length check, key-0 check, then value validation. -/
theorem test17_even (nums : List PLItem) :
    test_WCAG_PDF_17 (some (some nums)) =
      if nums.length % 2 ≠ 0 then some 0
      else if !((plDictOf [] (pairUp nums)).map Prod.fst).contains (PLItem.num 0)
        then some 0
      else checkPLVals ((plDictOf [] (pairUp nums)).map Prod.snd) := rfl

/-- Claim C7.  `test_WCAG_PDF_17`: no `PageLabels` dictionary returns not
applicable (2); an odd-length `/Nums` array returns fail (0); a well-formed
array with no entry for key 0 returns fail (0); with pairwise distinct keys,
any labeling entry whose `/S` style is missing or inadmissible returns fail
(0); and with key 0 present and every labeling entry carrying an admissible
`/S` style it returns pass (1). -/
theorem claimC7 :
    test_WCAG_PDF_17 none = some 2 ∧
      (∀ (nums : List PLItem), nums.length % 2 = 1 →
        test_WCAG_PDF_17 (some (some nums)) = some 0) ∧
      (∀ (entries : List (Int × Option String)), (∀ e ∈ entries, e.1 ≠ 0) →
        test_WCAG_PDF_17 (some (some (plEncode entries))) = some 0) ∧
      (∀ (entries : List (Int × Option String)), (entries.map Prod.fst).Nodup →
        (∃ e ∈ entries, validPLLabel (PLItem.label e.2) = false) →
        test_WCAG_PDF_17 (some (some (plEncode entries))) = some 0) ∧
      ∀ (entries : List (Int × Option String)), (∃ e ∈ entries, e.1 = 0) →
        (∀ e ∈ entries, validPLLabel (PLItem.label e.2) = true) →
        test_WCAG_PDF_17 (some (some (plEncode entries))) = some 1 := by
  refine ⟨rfl, ?_, ?_, ?_, ?_⟩
  · intro nums h
    rw [test17_even, if_pos (by omega)]
  · intro entries hkeys
    have hlen : (plEncode entries).length % 2 = 0 := by
      rw [length_plEncode]
      omega
    have hnotmem :
        PLItem.num 0 ∉ (plDictOf [] (pairUp (plEncode entries))).map Prod.fst := by
      intro hmem
      rcases (mem_keys_plDictOf _ _ _).mp hmem with h | h
      · simp at h
      · rw [pairUp_plEncode, List.map_map] at h
        obtain ⟨e, he, heq⟩ := List.mem_map.mp h
        have h0 : e.1 = 0 := by
          simpa using heq
        exact hkeys e he h0
    have hcont :
        ((plDictOf [] (pairUp (plEncode entries))).map Prod.fst).contains
          (PLItem.num 0) = false := by
      apply Bool.eq_false_iff.mpr
      intro hc
      exact hnotmem (List.mem_of_elem_eq_true hc)
    rw [test17_even, if_neg (by omega), if_pos (by rw [hcont]; rfl)]
  · intro entries hnodup hbad
    have hlen : (plEncode entries).length % 2 = 0 := by
      rw [length_plEncode]
      omega
    have hkeysform :
        (pairUp (plEncode entries)).map Prod.fst =
          (entries.map Prod.fst).map PLItem.num := by
      rw [pairUp_plEncode, List.map_map, List.map_map]
      exact List.map_congr_left fun e _ => rfl
    have hinj : Function.Injective PLItem.num := fun a b h => by injection h
    have hnd : ((pairUp (plEncode entries)).map Prod.fst).Nodup := by
      rw [hkeysform]
      exact hnodup.map hinj
    have hdict :
        plDictOf [] (pairUp (plEncode entries)) = pairUp (plEncode entries) := by
      have := plDictOf_eq_append (pairUp (plEncode entries)) [] hnd
        (by intro k hk; simp)
      simpa using this
    cases hcont :
        ((plDictOf [] (pairUp (plEncode entries))).map Prod.fst).contains
          (PLItem.num 0) with
    | false =>
      rw [test17_even, if_neg (by omega), if_pos (by rw [hcont]; rfl)]
    | true =>
      have hvals :
          (plDictOf [] (pairUp (plEncode entries))).map Prod.snd =
            entries.map (fun e => PLItem.label e.2) := by
        rw [hdict, pairUp_plEncode, List.map_map]
        exact List.map_congr_left fun e _ => rfl
      rw [test17_even, if_neg (by omega), if_neg (by rw [hcont]; simp), hvals]
      apply checkPLVals_of_bad
      · intro v hv
        obtain ⟨e, _, rfl⟩ := List.mem_map.mp hv
        exact ⟨e.2, rfl⟩
      · obtain ⟨e, he, hbe⟩ := hbad
        exact ⟨PLItem.label e.2, List.mem_map_of_mem _ he, hbe⟩
  · intro entries hkey0 hvalid
    have hlen : (plEncode entries).length % 2 = 0 := by
      rw [length_plEncode]
      omega
    have hcont :
        ((plDictOf [] (pairUp (plEncode entries))).map Prod.fst).contains
          (PLItem.num 0) = true := by
      apply List.elem_eq_true_of_mem
      apply (mem_keys_plDictOf _ _ _).mpr
      right
      rw [pairUp_plEncode, List.map_map]
      obtain ⟨e, he, h0⟩ := hkey0
      exact List.mem_map.mpr ⟨e, he, by simp [h0]⟩
    have hall : ∀ v ∈ (plDictOf [] (pairUp (plEncode entries))).map Prod.snd,
        validPLLabel v = true := by
      intro v hv
      rcases mem_values_plDictOf _ _ v hv with h1 | h2
      · simp at h1
      · rw [pairUp_plEncode, List.map_map] at h2
        obtain ⟨e, he, heq⟩ := List.mem_map.mp h2
        have hveq : v = PLItem.label e.2 := heq.symm
        rw [hveq]
        exact hvalid e he
    rw [test17_even, if_neg (by omega), if_neg (by rw [hcont]; simp)]
    exact checkPLVals_of_all_valid _ hall

/-- Witness for claim C7: a one-entry `PageLabels` number tree with key 0
and decimal style passes. -/
theorem claimC7_witness :
    test_WCAG_PDF_17 (some (some (plEncode [(0, some "/D")]))) = some 1 :=
  claimC7.2.2.2.2 [(0, some "/D")] ⟨(0, some "/D"), by simp, rfl⟩
    (by
      intro e he
      simp only [List.mem_singleton] at he
      subst he
      decide)

/-- Replacing the value stored under a present key makes it the looked-up
value. -/
theorem memoLookup_map_replace (m : Memo) (k : String) (v : MemoVal)
    (h : memoContains m k = true) :
    memoLookup (m.map fun kv => if kv.1 = k then (k, v) else kv) k = some v := by
  induction m with
  | nil => simp [memoContains, memoLookup] at h
  | cons kv rest ih =>
    obtain ⟨k1, v1⟩ := kv
    by_cases hk : k1 = k
    · subst hk
      have h1 : (if (k1, v1).1 = k1 then (k1, v) else (k1, v1)) = (k1, v) :=
        if_pos rfl
      rw [List.map_cons, h1]
      simp [memoLookup]
    · have h' : memoContains rest k = true := by
        simpa [memoContains, memoLookup, hk] using h
      have h1 : (if (k1, v1).1 = k then (k, v) else (k1, v1)) = (k1, v1) :=
        if_neg hk
      rw [List.map_cons, h1]
      simp only [memoLookup, if_neg hk]
      exact ih h'

/-- Appending a fresh key makes it the looked-up value. -/
theorem memoLookup_append_single (m : Memo) (k : String) (v : MemoVal)
    (h : memoContains m k = false) :
    memoLookup (m ++ [(k, v)]) k = some v := by
  induction m with
  | nil => simp [memoLookup]
  | cons kv rest ih =>
    obtain ⟨k1, v1⟩ := kv
    have hk : ¬ k1 = k := by
      intro hkk
      simp [memoContains, memoLookup, hkk] at h
    have h' : memoContains rest k = false := by
      simpa [memoContains, memoLookup, hk] using h
    simp only [List.cons_append, memoLookup, if_neg hk]
    exact ih h'

/-- `memo[k] = v` followed by `memo[k]` yields `v`. -/
theorem memoLookup_memoSet_self (m : Memo) (k : String) (v : MemoVal) :
    memoLookup (memoSet m k v) k = some v := by
  unfold memoSet
  by_cases h : memoContains m k
  · rw [if_pos h]
    exact memoLookup_map_replace m k v h
  · rw [if_neg h]
    exact memoLookup_append_single m k v (Bool.eq_false_iff.mpr h)

/-- Replacing the value stored under `k` does not change other lookups. -/
theorem memoLookup_map_replace_other (m : Memo) (k : String) (v : MemoVal)
    (k' : String) (hne : k' ≠ k) :
    memoLookup (m.map fun kv => if kv.1 = k then (k, v) else kv) k' =
      memoLookup m k' := by
  induction m with
  | nil => rfl
  | cons kv rest ih =>
    obtain ⟨k1, v1⟩ := kv
    by_cases hk : k1 = k
    · subst hk
      have hne' : ¬ k1 = k' := fun hh => hne (hh ▸ rfl)
      have h1 : (if (k1, v1).1 = k1 then (k1, v) else (k1, v1)) = (k1, v) :=
        if_pos rfl
      rw [List.map_cons, h1]
      simp only [memoLookup, if_neg hne']
      exact ih
    · have h1 : (if (k1, v1).1 = k then (k, v) else (k1, v1)) = (k1, v1) :=
        if_neg hk
      rw [List.map_cons, h1]
      by_cases hk' : k1 = k'
      · simp [memoLookup, hk']
      · simp only [memoLookup, if_neg hk']
        exact ih

/-- Appending an entry for `k` does not change other lookups. -/
theorem memoLookup_append_single_other (m : Memo) (k : String) (v : MemoVal)
    (k' : String) (hne : k' ≠ k) :
    memoLookup (m ++ [(k, v)]) k' = memoLookup m k' := by
  induction m with
  | nil =>
    simp only [List.nil_append, memoLookup]
    rw [if_neg (Ne.symm hne)]
  | cons kv rest ih =>
    obtain ⟨k1, v1⟩ := kv
    simp only [List.cons_append, memoLookup]
    by_cases hk' : k1 = k'
    · simp [hk']
    · simp only [if_neg hk']
      exact ih

/-- `memo[k] = v` does not change other lookups. -/
theorem memoLookup_memoSet_other (m : Memo) (k : String) (v : MemoVal)
    (k' : String) (hne : k' ≠ k) :
    memoLookup (memoSet m k v) k' = memoLookup m k' := by
  unfold memoSet
  by_cases h : memoContains m k
  · rw [if_pos h]
    exact memoLookup_map_replace_other m k v k' hne
  · rw [if_neg h]
    exact memoLookup_append_single_other m k v k' hne

/-- `del memo[k]` removes the key. -/
theorem memoLookup_memoDel_self (m : Memo) (k : String) :
    memoLookup (memoDel m k) k = none := by
  unfold memoDel
  induction m with
  | nil => rfl
  | cons kv rest ih =>
    obtain ⟨k1, v1⟩ := kv
    by_cases hk : k1 = k
    · simpa [List.filter_cons, hk] using ih
    · simp only [List.filter_cons]
      rw [if_pos (by simpa using hk)]
      simp only [memoLookup, if_neg hk]
      exact ih

/-- `del memo[k]` does not change other lookups. -/
theorem memoLookup_memoDel_other (m : Memo) (k k' : String) (hne : k' ≠ k) :
    memoLookup (memoDel m k) k' = memoLookup m k' := by
  unfold memoDel
  induction m with
  | nil => rfl
  | cons kv rest ih =>
    obtain ⟨k1, v1⟩ := kv
    by_cases hk : k1 = k
    · subst hk
      have hne' : ¬ k1 = k' := fun hh => hne (hh ▸ rfl)
      simp only [List.filter_cons]
      rw [if_neg (by simp)]
      simp only [memoLookup, if_neg hne']
      exact ih
    · simp only [List.filter_cons]
      rw [if_pos (by simpa using hk)]
      simp only [memoLookup]
      by_cases hk' : k1 = k'
      · simp [hk']
      · simp only [if_neg hk']
        exact ih

/-- Claim C8.  When the memo holds `(fail, pass)` tuples for both
`wcag.pdf.11` and `wcag.pdf.13`, the report pre-preparation succeeds,
stores a single `wcag.pdf.sc244` entry whose fail count is the minimum of
the two fail counts and whose pass count is the maximum of the two pass
counts, and removes both original entries. -/
theorem claimC8 :
    ∀ (memo : Memo) (f11 p11 f13 p13 : Nat),
      memoLookup memo "wcag.pdf.11" = some (MemoVal.pair f11 p11) →
      memoLookup memo "wcag.pdf.13" = some (MemoVal.pair f13 p13) →
      ∃ m, mergeLinkTests memo = .ok m ∧
        memoLookup m "wcag.pdf.sc244" =
          some (MemoVal.pair (min f11 f13) (max p11 p13)) ∧
        memoLookup m "wcag.pdf.11" = none ∧
        memoLookup m "wcag.pdf.13" = none := by
  intro memo f11 p11 f13 p13 h11 h13
  have hc11 : memoContains memo "wcag.pdf.11" = true := by
    simp [memoContains, h11]
  refine ⟨memoDel (memoDel (memoSet memo "wcag.pdf.sc244"
      (MemoVal.pair (min f11 f13) (max p11 p13))) "wcag.pdf.11") "wcag.pdf.13",
    ?_, ?_, ?_, ?_⟩
  · unfold mergeLinkTests
    rw [if_pos (by rw [hc11]; rfl)]
    simp [memoGet, h11, h13, unpackPair, bind, Except.bind, Functor.map,
      Except.map, pure, Except.pure]
  · rw [memoLookup_memoDel_other _ _ _ (by decide),
      memoLookup_memoDel_other _ _ _ (by decide), memoLookup_memoSet_self]
  · rw [memoLookup_memoDel_other _ _ _ (by decide), memoLookup_memoDel_self]
  · rw [memoLookup_memoDel_self]

/-- Witness for claim C8: the spec's concrete example, `(1,2)` and `(0,3)`
merging to `(0,3)`. -/
theorem claimC8_witness :
    ∃ m, mergeLinkTests
        [("wcag.pdf.11", MemoVal.pair 1 2), ("wcag.pdf.13", MemoVal.pair 0 3)] =
        .ok m ∧
      memoLookup m "wcag.pdf.sc244" = some (MemoVal.pair 0 3) ∧
      memoLookup m "wcag.pdf.11" = none ∧
      memoLookup m "wcag.pdf.13" = none := by
  have h := claimC8
    [("wcag.pdf.11", MemoVal.pair 1 2), ("wcag.pdf.13", MemoVal.pair 0 3)]
    1 2 0 3 rfl rfl
  simpa using h

/-- Claim C9.  Every document-fatal analysis outcome makes
`extractAWAMIndicators` raise a single `PdfWamProcessingError` carrying the
corresponding message (for unclassified exceptions, the original error's
class name and message), and it never returns an empty or partial result
map in these cases. -/
theorem claimC9 :
    ∀ (o : AnalysisOutcome), (∀ r, o ≠ .ok r) →
      ((∃ msg, extractAWAMIndicators o = .processingError msg) ∧
        ∀ r, extractAWAMIndicators o ≠ .resultMap r) ∧
      extractAWAMIndicators .decryptionFailed =
        .processingError "Document Decryption failed" ∧
      extractAWAMIndicators .notImplementedError =
        .processingError "Unsupported decryption algorithm." ∧
      (∀ m, extractAWAMIndicators (.pdfReadError m) =
        .processingError ("Error, cannot read PDF file: " ++ m)) ∧
      ∀ cls m, extractAWAMIndicators (.otherError cls m) =
        .processingError ("Unguarded error => [" ++ cls ++ " : " ++ m ++
          " ] <=. Please send feedback to developers.") := by
  intro o h
  refine ⟨⟨?_, ?_⟩, rfl, rfl, fun m => rfl, fun cls m => rfl⟩
  · cases o with
    | ok r => exact absurd rfl (h r)
    | decryptionFailed => exact ⟨_, rfl⟩
    | notImplementedError => exact ⟨_, rfl⟩
    | pdfReadError m => exact ⟨_, rfl⟩
    | otherError c m => exact ⟨_, rfl⟩
  · intro r
    cases o with
    | ok r' => exact absurd rfl (h r')
    | decryptionFailed => exact fun hh => by cases hh
    | notImplementedError => exact fun hh => by cases hh
    | pdfReadError m => exact fun hh => by cases hh
    | otherError c m => exact fun hh => by cases hh

/-- Witness for claim C9: the decryption-failure outcome raises and returns
no result map. -/
theorem claimC9_witness :
    (∃ msg, extractAWAMIndicators .decryptionFailed = .processingError msg) ∧
      ∀ r, extractAWAMIndicators .decryptionFailed ≠ .resultMap r :=
  (claimC9 .decryptionFailed (fun _ h => AnalysisOutcome.noConfusion h)).1

/-- Claim C10.  When the memo contains exactly one of `wcag.pdf.11` and
`wcag.pdf.13`, the merge block shared by `get_json` and `print_report` is
entered (either key suffices) but unconditionally reads both, so it raises
a `KeyError` for the missing key instead of producing a report. -/
theorem claimC10 :
    ∀ (memo : Memo) (f p : Nat),
      (memoLookup memo "wcag.pdf.11" = some (MemoVal.pair f p) →
        memoLookup memo "wcag.pdf.13" = none →
        mergeLinkTests memo = .error (.keyError "wcag.pdf.13")) ∧
      (memoLookup memo "wcag.pdf.11" = none →
        memoContains memo "wcag.pdf.13" = true →
        mergeLinkTests memo = .error (.keyError "wcag.pdf.11")) := by
  intro memo f p
  constructor
  · intro h11 h13
    have hc : memoContains memo "wcag.pdf.11" = true := by
      simp [memoContains, h11]
    unfold mergeLinkTests
    rw [if_pos (by rw [hc]; rfl)]
    simp [memoGet, h11, h13, unpackPair, bind, Except.bind, Functor.map,
      Except.map, pure, Except.pure]
  · intro h11 hc13
    have hc : memoContains memo "wcag.pdf.11" = false := by
      simp [memoContains, h11]
    unfold mergeLinkTests
    rw [if_pos (by rw [hc13, hc]; rfl)]
    simp [memoGet, h11, bind, Except.bind]

/-- Witness for claim C10: both one-key memos raise the `KeyError` for the
other key. -/
theorem claimC10_witness :
    mergeLinkTests [("wcag.pdf.11", MemoVal.pair 1 2)] =
        .error (.keyError "wcag.pdf.13") ∧
      mergeLinkTests [("wcag.pdf.13", MemoVal.int 0)] =
        .error (.keyError "wcag.pdf.11") :=
  ⟨(claimC10 [("wcag.pdf.11", MemoVal.pair 1 2)] 1 2).1 rfl rfl,
    (claimC10 [("wcag.pdf.13", MemoVal.int 0)] 1 2).2 rfl rfl⟩
